import Mathlib

/-!
Shallow embedding of the Windows platform-services adapter
(`src/common/system/system_windows.cpp` of colobot) and proofs about it.

Machine integers (`long long` counter values, native return codes) are
modelled as `ℤ`/`ℕ`.  The floating-point values of the timing functions are
modelled as rationals together with an explicit IEEE-754 rounding operator
`roundFP`: round to nearest, ties to even, at 53 significant bits for
`double` and 24 for `float`, with unbounded exponent (no value reachable in
these functions overflows or falls into the subnormal range of the
corresponding format, so the unbounded-exponent model agrees with IEEE-754
on them).  Every conversion and arithmetic result of the source is wrapped
in the corresponding `roundFP`, and the final `static_cast<long long>` is
truncation toward zero.
External OS facilities (`MessageBoxW`, `system`) are passed in as explicit
oracle functions, so that theorems quantify over every possible native
return value.
-/

/-- Time stamp: a monotonic hardware counter reading.  In the source,
`SystemTimeStamp` holds a single `long long counterValue`. -/
structure SystemTimeStamp where
  counterValue : ℤ
deriving DecidableEq

/-- Dialog type enum `SystemDialogType` of the source. -/
inductive SystemDialogType
  | SDT_INFO
  | SDT_WARNING
  | SDT_ERROR
  | SDT_YES_NO
  | SDT_OK_CANCEL
deriving DecidableEq

/-- Dialog result enum `SystemDialogResult` of the source. -/
inductive SystemDialogResult
  | SDR_OK
  | SDR_CANCEL
  | SDR_YES
  | SDR_NO
deriving DecidableEq

/-- Windows `MessageBox` button-set flag `MB_OK` (value from `<windows.h>`). -/
def MB_OK : ℕ := 0x0

/-- Windows button-set flag `MB_OKCANCEL`. -/
def MB_OKCANCEL : ℕ := 0x1

/-- Windows button-set flag `MB_YESNO`. -/
def MB_YESNO : ℕ := 0x4

/-- Windows icon flag `MB_ICONERROR`. -/
def MB_ICONERROR : ℕ := 0x10

/-- Windows icon flag `MB_ICONQUESTION`. -/
def MB_ICONQUESTION : ℕ := 0x20

/-- Windows icon flag `MB_ICONWARNING`. -/
def MB_ICONWARNING : ℕ := 0x30

/-- Windows icon flag `MB_ICONINFORMATION`. -/
def MB_ICONINFORMATION : ℕ := 0x40

/-- Windows `MessageBox` return code `IDOK`. -/
def IDOK : ℕ := 1

/-- Windows `MessageBox` return code `IDCANCEL`. -/
def IDCANCEL : ℕ := 2

/-- Windows `MessageBox` return code `IDYES`. -/
def IDYES : ℕ := 6

/-- Windows `MessageBox` return code `IDNO`. -/
def IDNO : ℕ := 7

/-- The `windowsType` flag word computed by the first `switch` of
`CSystemUtilsWindows::SystemDialog`. -/
def systemDialogWindowsType : SystemDialogType → ℕ
  | .SDT_INFO => MB_ICONINFORMATION ||| MB_OK
  | .SDT_WARNING => MB_ICONWARNING ||| MB_OK
  | .SDT_ERROR => MB_ICONERROR ||| MB_OK
  | .SDT_YES_NO => MB_ICONQUESTION ||| MB_YESNO
  | .SDT_OK_CANCEL => MB_ICONWARNING ||| MB_OKCANCEL

/-- `CSystemUtilsWindows::SystemDialog`: builds the `windowsType` flags,
calls `MessageBoxW` (here the oracle `messageBoxW`, applied to the flag word)
and maps the native return code through the second `switch`; every
unrecognized code falls through to `return SDR_OK`. -/
def SystemDialog (type : SystemDialogType) (messageBoxW : ℕ → ℕ) : SystemDialogResult :=
  let ret := messageBoxW (systemDialogWindowsType type)
  if ret = IDOK then .SDR_OK
  else if ret = IDCANCEL then .SDR_CANCEL
  else if ret = IDYES then .SDR_YES
  else if ret = IDNO then .SDR_NO
  else .SDR_OK

/-- Native button-press codes that a message box created with the given flag
word can report.  The low nibble of the flags selects the button set.
Modelled from the Windows API contract of `MessageBoxW` (external to the
repository): `MB_YESNO` boxes report `IDYES`/`IDNO`, `MB_OKCANCEL` boxes
report `IDOK`/`IDCANCEL`, `MB_OK` boxes report `IDOK`. -/
def messageBoxButtonCodes (windowsType : ℕ) : List ℕ :=
  if windowsType % 16 = MB_YESNO then [IDYES, IDNO]
  else if windowsType % 16 = MB_OKCANCEL then [IDOK, IDCANCEL]
  else [IDOK]

/-- The subset of portable dialog results that each dialog type's button set
can produce, following the spec's words (`INFO`/`WARNING`/`ERROR` show a
plain OK button, `YES_NO` shows Yes/No, `OK_CANCEL` shows OK/Cancel). -/
def dialogTypeResults : SystemDialogType → List SystemDialogResult
  | .SDT_INFO => [.SDR_OK]
  | .SDT_WARNING => [.SDR_OK]
  | .SDT_ERROR => [.SDR_OK]
  | .SDT_YES_NO => [.SDR_YES, .SDR_NO]
  | .SDT_OK_CANCEL => [.SDR_OK, .SDR_CANCEL]

/-- Truncation toward zero of a rational number, modelling the C++
`static_cast<long long>` applied to a floating-point value. -/
def ratTrunc (q : ℚ) : ℤ := if q < 0 then ⌈q⌉ else ⌊q⌋

/-- Round a rational to the nearest integer, ties to even. -/
def roundNearestEven (x : ℚ) : ℤ :=
  if Int.fract x < 1/2 then ⌊x⌋
  else if 1/2 < Int.fract x then ⌊x⌋ + 1
  else if ⌊x⌋ % 2 = 0 then ⌊x⌋ else ⌊x⌋ + 1

/-- IEEE-754 rounding of a rational to a binary floating-point format with
`p` significant bits (round to nearest, ties to even, unbounded exponent):
the value is scaled into `[2^(p-1), 2^p)`, its significand rounded to an
integer, and scaled back.  `p = 53` models `double`, `p = 24` models
`float`. -/
def roundFP (p : ℕ) (q : ℚ) : ℚ :=
  if q = 0 then 0
  else (roundNearestEven (q / 2 ^ (Int.log 2 |q| - ((p:ℤ) - 1))) : ℚ)
      * 2 ^ (Int.log 2 |q| - ((p:ℤ) - 1))

/-- Adapter state: the process-wide member `m_counterFrequency` set by
`Init`. -/
structure SystemUtilsState where
  counterFrequency : ℤ
deriving DecidableEq

/-- `CSystemUtilsWindows::Init`: stores the frequency reported by
`QueryPerformanceFrequency` (here the argument `osFrequency`) in
`m_counterFrequency` and asserts it is non-zero.  The `assert` is modelled
as the failure case `none`: a normal return is `some` of the state. -/
def Init (osFrequency : ℤ) : Option SystemUtilsState :=
  if osFrequency ≠ 0 then some { counterFrequency := osFrequency } else none

/-- `CSystemUtilsWindows::InterpolateTimeStamp`:
`dst->counterValue = a->counterValue
  + static_cast<long long>((b->counterValue - a->counterValue)
      * static_cast<double>(i))`.
The `long long` difference is exact; its conversion to `double` for the
multiplication rounds to 53 bits, the `double` multiplication rounds its
result to 53 bits, and the cast back truncates.  The `float i` parameter is
modelled by its rational value (the widening `float` to `double` cast is
exact). -/
def InterpolateTimeStamp (a b : SystemTimeStamp) (i : ℚ) : SystemTimeStamp :=
  { counterValue := a.counterValue +
      ratTrunc (roundFP 53 (roundFP 53 ((b.counterValue - a.counterValue : ℤ) : ℚ) * i)) }

/-- `CSystemUtilsWindows::TimeStampExactDiff`:
`float floatValue = static_cast<double>(after->counterValue - before->counterValue)
  * (1e9 / static_cast<double>(m_counterFrequency));
return static_cast<long long>(floatValue);`.
The `long long` tick difference is exact; its conversion to `double` rounds
to 53 bits, as do the `double` division `1e9 / frequency` (the literal
`1e9` is exactly representable) and the `double` multiplication; the result
is then narrowed into the 32-bit `float floatValue` (24-bit rounding)
before the final truncating cast. -/
def TimeStampExactDiff (st : SystemUtilsState) (before after : SystemTimeStamp) : ℤ :=
  ratTrunc (roundFP 24 (roundFP 53
    (roundFP 53 ((after.counterValue - before.counterValue : ℤ) : ℚ)
      * roundFP 53 (1000000000 / roundFP 53 (st.counterFrequency : ℚ)))))

/-- Spec-side formula for `TimeStampExactDiff`, following the spec's words:
the tick difference multiplied by `1e9`, divided by the counter frequency,
truncated. -/
def specTimeStampExactDiff (st : SystemUtilsState) (before after : SystemTimeStamp) : ℤ :=
  ratTrunc (((after.counterValue - before.counterValue : ℤ) : ℚ)
      * 1000000000 / (st.counterFrequency : ℚ))

/-- The non-portable branch of `CSystemUtilsWindows::GetSaveDir`.  The
argument `envUSERPROFILE` is the value of `GetEnvVar("USERPROFILE")` (empty
when the variable is unset).  Returns the chosen directory together with a
flag recording whether the "Unable to find directory for saves" warning was
logged. -/
def GetSaveDir (envUSERPROFILE : String) (defaultSaveDir : String) : String × Bool :=
  if envUSERPROFILE.isEmpty then (defaultSaveDir, true)
  else (envUSERPROFILE ++ "\\colobot", false)

/-- `boost::filesystem::path(path).make_preferred()`: on Windows, directory
separators are converted to backslashes. -/
def makePreferred (path : String) : String :=
  path.map (fun c => if c = '/' then '\\' else c)

/-- The shell command built by `CSystemUtilsWindows::OpenPath`. -/
def openPathCommand (path : String) : String :=
  "start explorer \"" ++ makePreferred path ++ "\""

/-- The shell command built by `CSystemUtilsWindows::OpenWebsite`. -/
def openWebsiteCommand (url : String) : String :=
  "rundll32 url.dll,FileProtocolHandler \"" ++ url ++ "\""

/-- `CSystemUtilsWindows::OpenPath`: runs the launch command through
`system` (here the oracle `systemExit` giving the exit code) and returns
`false`, logging an error, exactly on a non-zero exit code.  The second
component records whether the error was logged. -/
def OpenPath (systemExit : String → ℤ) (path : String) : Bool × Bool :=
  let result := systemExit (openPathCommand path)
  if result ≠ 0 then (false, true) else (true, false)

/-- `CSystemUtilsWindows::OpenWebsite`: same shape as `OpenPath` with the
URL-handler command. -/
def OpenWebsite (systemExit : String → ℤ) (url : String) : Bool × Bool :=
  let result := systemExit (openWebsiteCommand url)
  if result ≠ 0 then (false, true) else (true, false)

/-! ### Helper lemmas -/

/-- `ratTrunc` of an integer is that integer. -/
theorem ratTrunc_intCast (n : ℤ) : ratTrunc (n : ℚ) = n := by
  unfold ratTrunc
  split <;> simp

/-- `ratTrunc` commutes with negation (truncation toward zero is an odd
function). -/
theorem ratTrunc_neg (q : ℚ) : ratTrunc (-q) = -ratTrunc q := by
  unfold ratTrunc
  rcases lt_trichotomy q 0 with h | h | h
  · rw [if_neg (by linarith), if_pos h, Int.floor_neg]
  · subst h
    simp
  · rw [if_pos (by linarith), if_neg (by linarith), Int.ceil_neg]

/-- `ratTrunc` evaluated at an integer-valued rational. -/
theorem ratTrunc_eq_int (q : ℚ) (n : ℤ) (h : q = (n:ℚ)) : ratTrunc q = n := by
  rw [h]
  exact ratTrunc_intCast n

/-- Rounding an integer to the nearest integer is the identity. -/
theorem roundNearestEven_intCast (n : ℤ) : roundNearestEven (n : ℚ) = n := by
  unfold roundNearestEven
  rw [Int.fract_intCast, Int.floor_intCast]
  norm_num

/-- Round to nearest, ties to even, is an odd function. -/
theorem roundNearestEven_neg (x : ℚ) : roundNearestEven (-x) = -roundNearestEven x := by
  by_cases h0 : Int.fract x = 0
  · obtain ⟨n, rfl⟩ : ∃ n : ℤ, x = (n:ℚ) := by
      refine ⟨⌊x⌋, ?_⟩
      have : Int.fract x = x - ⌊x⌋ := rfl
      rw [this] at h0
      linarith [sub_eq_zero.mp h0]
    rw [← Int.cast_neg, roundNearestEven_intCast, roundNearestEven_intCast]
  · have hb0 : 0 < Int.fract x := lt_of_le_of_ne (Int.fract_nonneg x) (Ne.symm h0)
    have hb1 : Int.fract x < 1 := Int.fract_lt_one x
    have hf : Int.fract (-x) = 1 - Int.fract x := Int.fract_neg h0
    have hfl : ⌊-x⌋ = -⌊x⌋ - 1 := by
      rw [Int.floor_neg]
      have hc : ⌈x⌉ = ⌊x⌋ + 1 := by
        rw [Int.ceil_eq_iff]
        have h1 : (⌊x⌋ : ℚ) ≤ x := Int.floor_le x
        have h2 : Int.fract x = x - ⌊x⌋ := rfl
        constructor
        · push_cast
          nlinarith [hb0, h2]
        · push_cast
          linarith [(Int.lt_floor_add_one x).le]
      omega
    unfold roundNearestEven
    rw [hf, hfl]
    rcases lt_trichotomy (Int.fract x) (1/2 : ℚ) with hlt | heq | hgt
    · have hc1 : ¬(1 - Int.fract x < 1/2) := by linarith
      have hc2 : 1/2 < 1 - Int.fract x := by linarith
      rw [if_neg hc1, if_pos hc2, if_pos hlt]
      ring
    · have hc1 : ¬(1 - Int.fract x < 1/2) := by rw [heq]; norm_num
      have hc2 : ¬(1/2 < 1 - Int.fract x) := by rw [heq]; norm_num
      have hc3 : ¬(Int.fract x < 1/2) := by rw [heq]; norm_num
      have hc4 : ¬(1/2 < Int.fract x) := by rw [heq]; norm_num
      rw [if_neg hc1, if_neg hc2, if_neg hc3, if_neg hc4]
      by_cases hev : ⌊x⌋ % 2 = 0
      · have hodd : ¬((-⌊x⌋ - 1) % 2 = 0) := by omega
        rw [if_neg hodd, if_pos hev]
        ring
      · have hev' : (-⌊x⌋ - 1) % 2 = 0 := by omega
        rw [if_pos hev', if_neg hev]
        ring
    · have hc1 : 1 - Int.fract x < 1/2 := by linarith
      have hc3 : ¬(Int.fract x < 1/2) := by linarith
      rw [if_pos hc1, if_neg hc3, if_pos hgt]
      ring

/-- Rounding at half-integers: ties go to the even neighbour. -/
theorem roundNearestEven_int_add_half (n : ℤ) :
    roundNearestEven ((n:ℚ) + 1/2) = if n % 2 = 0 then n else n + 1 := by
  have hfr : Int.fract ((n:ℚ) + 1/2) = 1/2 := by
    rw [add_comm, Int.fract_add_int]
    exact Int.fract_eq_self.mpr (by norm_num)
  have hfl : ⌊(n:ℚ) + 1/2⌋ = n := by
    rw [add_comm, Int.floor_add_int]
    have : ⌊(1/2:ℚ)⌋ = 0 := by
      rw [Int.floor_eq_zero_iff]
      constructor <;> norm_num
    omega
  unfold roundNearestEven
  rw [hfr, hfl, if_neg (by norm_num), if_neg (by norm_num)]

/-- Floating-point rounding fixes zero. -/
theorem roundFP_zero (p : ℕ) : roundFP p 0 = 0 := by
  unfold roundFP
  simp

/-- Floating-point rounding is an odd function: in IEEE-754, every rounding
stage commutes with negation. -/
theorem roundFP_neg (p : ℕ) (q : ℚ) : roundFP p (-q) = -roundFP p q := by
  by_cases h0 : q = 0
  · rw [h0]
    simp [roundFP]
  · unfold roundFP
    rw [if_neg (neg_ne_zero.mpr h0), if_neg h0, abs_neg, neg_div, roundNearestEven_neg]
    push_cast
    ring

/-- A value whose scaled significand is an integer is a fixed point of
floating-point rounding. -/
theorem roundFP_eq_self (p : ℕ) (q : ℚ) (n : ℤ) (h0 : q ≠ 0)
    (h : q / 2 ^ (Int.log 2 |q| - ((p:ℤ) - 1)) = (n : ℚ)) :
    roundFP p q = q := by
  unfold roundFP
  rw [if_neg h0, h, roundNearestEven_intCast, ← h,
    div_mul_cancel₀ _ (zpow_ne_zero _ (by norm_num : (2:ℚ) ≠ 0))]

/-- Integers of magnitude at most `2^p` are exactly representable in a
floating-point format with `p` significant bits. -/
theorem roundFP_intCast (p : ℕ) (hp : 1 ≤ p) (n : ℤ) (hn : |n| ≤ 2 ^ p) :
    roundFP p (n : ℚ) = (n : ℚ) := by
  by_cases h0 : n = 0
  · rw [h0]
    push_cast
    exact roundFP_zero p
  · have hq0 : ((n:ℚ)) ≠ 0 := Int.cast_ne_zero.mpr h0
    have habs : (0:ℚ) < |(n:ℚ)| := abs_pos.mpr hq0
    rcases lt_or_eq_of_le hn with hlt | heq
    · have h1 : (2:ℚ) ^ Int.log 2 |(n:ℚ)| ≤ |(n:ℚ)| := by
        have := Int.zpow_log_le_self (b := 2) (R := ℚ) (by norm_num) habs
        simpa using this
      have h2 : |(n:ℚ)| < (2:ℚ) ^ ((p:ℕ):ℤ) := by
        rw [zpow_natCast, ← Int.cast_abs]
        exact_mod_cast hlt
      have hLp : Int.log 2 |(n:ℚ)| < ((p:ℕ):ℤ) :=
        (zpow_lt_zpow_iff_right₀ (by norm_num : (1:ℚ) < 2)).mp (lt_of_le_of_lt h1 h2)
      set L := Int.log 2 |(n:ℚ)| with hL
      set k : ℕ := ((p:ℤ) - 1 - L).toNat with hkdef
      have hke : L - ((p:ℤ) - 1) = -(k:ℤ) := by omega
      refine roundFP_eq_self p _ (n * 2 ^ k) hq0 ?_
      rw [hke, zpow_neg, zpow_natCast, div_eq_mul_inv, inv_inv]
      push_cast
      ring
    · have hlog : Int.log 2 |(n:ℚ)| = (p:ℤ) := by
        have : |(n:ℚ)| = (2:ℚ) ^ ((p:ℕ):ℤ) := by
          rw [zpow_natCast, ← Int.cast_abs, heq]
          push_cast
          ring
        rw [this]
        simpa using Int.log_zpow (R := ℚ) (b := 2) (by norm_num) ((p:ℕ):ℤ)
      rcases (abs_eq (by positivity : (0:ℤ) ≤ 2 ^ p)).mp heq with hn' | hn'
      · refine roundFP_eq_self p _ (2 ^ (p - 1)) hq0 ?_
        rw [hlog, show (p:ℤ) - ((p:ℤ) - 1) = 1 from by ring, zpow_one, hn']
        push_cast
        rw [show (2:ℚ) ^ p = 2 ^ (p - 1) * 2 from by rw [← pow_succ]; congr 1; omega]
        field_simp
      · refine roundFP_eq_self p _ (-(2 ^ (p - 1))) hq0 ?_
        rw [hlog, show (p:ℤ) - ((p:ℤ) - 1) = 1 from by ring, zpow_one, hn']
        push_cast
        rw [show (2:ℚ) ^ p = 2 ^ (p - 1) * 2 from by rw [← pow_succ]; congr 1; omega]
        field_simp

/-- Convenience form of `roundFP_intCast` for a rational given as equal to
an integer. -/
theorem roundFP_eq_self_of_eq_int (p : ℕ) (hp : 1 ≤ p) (q : ℚ) (n : ℤ)
    (hq : q = (n:ℚ)) (hn : |n| ≤ 2 ^ p) : roundFP p q = q := by
  rw [hq]
  exact roundFP_intCast p hp n hn

/-- Evaluation of `roundFP` once the binade of the argument is known. -/
theorem roundFP_eval (p : ℕ) (q : ℚ) (e : ℤ) (h0 : q ≠ 0)
    (hlo : (2:ℚ) ^ (e + (p:ℤ) - 1) ≤ |q|) (hhi : |q| < (2:ℚ) ^ (e + (p:ℤ))) :
    roundFP p q = (roundNearestEven (q / 2 ^ e) : ℚ) * 2 ^ e := by
  have habs : (0:ℚ) < |q| := abs_pos.mpr h0
  have h1 : (2:ℚ) ^ Int.log 2 |q| ≤ |q| := by
    have := Int.zpow_log_le_self (b := 2) (R := ℚ) (by norm_num) habs
    simpa using this
  have h2 : |q| < (2:ℚ) ^ (Int.log 2 |q| + 1) := by
    have := Int.lt_zpow_succ_log_self (b := 2) (R := ℚ) (by norm_num) |q|
    simpa using this
  have hA : Int.log 2 |q| < e + (p:ℤ) :=
    (zpow_lt_zpow_iff_right₀ (by norm_num : (1:ℚ) < 2)).mp (lt_of_le_of_lt h1 hhi)
  have hB : e + (p:ℤ) - 1 < Int.log 2 |q| + 1 :=
    (zpow_lt_zpow_iff_right₀ (by norm_num : (1:ℚ) < 2)).mp (lt_of_le_of_lt hlo h2)
  have hlog : Int.log 2 |q| = e + (p:ℤ) - 1 := by omega
  unfold roundFP
  rw [if_neg h0, hlog, show e + (p:ℤ) - 1 - ((p:ℤ) - 1) = e from by ring]

/-- `2^53 + 1` needs 54 significant bits: converting it to `double` rounds
it down to `2^53` (tie to even). -/
theorem roundFP53_two_pow_53_add_one :
    roundFP 53 ((9007199254740993 : ℚ)) = 9007199254740992 := by
  rw [roundFP_eval 53 _ 1 (by norm_num)
    (by rw [show (1:ℤ) + (53:ℕ) - 1 = ((53:ℕ):ℤ) from by norm_num, zpow_natCast]; norm_num)
    (by rw [show (1:ℤ) + (53:ℕ) = ((54:ℕ):ℤ) from by norm_num, zpow_natCast]; norm_num)]
  rw [show (9007199254740993:ℚ) / 2 ^ (1:ℤ) = ((4503599627370496:ℤ):ℚ) + 1/2 from by
    rw [zpow_one]; push_cast; norm_num]
  rw [roundNearestEven_int_add_half, if_pos (by decide)]
  rw [zpow_one]
  push_cast
  norm_num

/-- `167772200` nanoseconds needs 25 significant bits: narrowing it to
`float` rounds it down to `167772192` (tie to even). -/
theorem roundFP24_of_167772200 :
    roundFP 24 ((167772200 : ℚ)) = 167772192 := by
  rw [roundFP_eval 24 _ 4 (by norm_num)
    (by rw [show (4:ℤ) + (24:ℕ) - 1 = ((27:ℕ):ℤ) from by norm_num, zpow_natCast]; norm_num)
    (by rw [show (4:ℤ) + (24:ℕ) = ((28:ℕ):ℤ) from by norm_num, zpow_natCast]; norm_num)]
  rw [show (167772200:ℚ) / 2 ^ (4:ℤ) = ((10485762:ℤ):ℚ) + 1/2 from by
    rw [show (2:ℚ) ^ (4:ℤ) = 16 from by norm_num]; push_cast; norm_num]
  rw [roundNearestEven_int_add_half, if_pos (by decide)]
  rw [show (2:ℚ) ^ (4:ℤ) = 16 from by norm_num]
  push_cast
  norm_num

/-! ### Claims -/

/-- Counterexample to C1 as stated: with the counter frequency `10^7`
established by `Init` and tick difference `1677722`, the exact value
`1677722 × 1e9 / 10^7 = 167772200` needs 25 significant bits, so the
source's narrowing of the `double` product into the 32-bit
`float floatValue` rounds it to `167772192`; the claim's formula demands
`167772200`. -/
theorem TimeStampExactDiff_float_narrowing_counterexample :
    Init 10000000 = some { counterFrequency := 10000000 } ∧
      TimeStampExactDiff { counterFrequency := 10000000 } ⟨0⟩ ⟨1677722⟩ = 167772192 ∧
      specTimeStampExactDiff { counterFrequency := 10000000 } ⟨0⟩ ⟨1677722⟩ = 167772200 := by
  have h1 : roundFP 53 ((10000000:ℚ)) = 10000000 :=
    roundFP_eq_self_of_eq_int 53 (by norm_num) _ 10000000 (by norm_num) (by norm_num)
  have h2 : roundFP 53 ((100:ℚ)) = 100 :=
    roundFP_eq_self_of_eq_int 53 (by norm_num) _ 100 (by norm_num) (by norm_num)
  have h3 : roundFP 53 ((1677722:ℚ)) = 1677722 :=
    roundFP_eq_self_of_eq_int 53 (by norm_num) _ 1677722 (by norm_num) (by norm_num)
  have h4 : roundFP 53 ((167772200:ℚ)) = 167772200 :=
    roundFP_eq_self_of_eq_int 53 (by norm_num) _ 167772200 (by norm_num) (by norm_num)
  refine ⟨by decide, ?_, ?_⟩
  · unfold TimeStampExactDiff
    norm_num
    rw [h1]
    norm_num
    rw [h2, h3]
    norm_num
    rw [h4, roundFP24_of_167772200]
    exact ratTrunc_eq_int _ 167772192 (by norm_num)
  · unfold specTimeStampExactDiff
    norm_num
    exact ratTrunc_eq_int _ 167772200 (by norm_num)

/-- C1 (amended): given a non-zero counter frequency established by `Init`,
`TimeStampExactDiff before after` equals the tick difference multiplied by
`1e9`, divided by the counter frequency, truncated — provided every
intermediate floating-point value of the source (the frequency as a
`double`, the `double` quotient `1e9 / frequency`, the tick difference as a
`double`, their `double` product, and the product's narrowing into the
32-bit `float` variable) is exactly representable; the counterexample shows
the rounding of the `float` narrowing is observable otherwise. -/
theorem TimeStampExactDiff_eq_spec (osFrequency : ℤ) (st : SystemUtilsState)
    (hinit : Init osFrequency = some st) (before after : SystemTimeStamp)
    (hfreq : roundFP 53 (st.counterFrequency : ℚ) = (st.counterFrequency : ℚ))
    (hquot : roundFP 53 (1000000000 / (st.counterFrequency : ℚ))
        = 1000000000 / (st.counterFrequency : ℚ))
    (hdiff : roundFP 53 ((after.counterValue - before.counterValue : ℤ) : ℚ)
        = ((after.counterValue - before.counterValue : ℤ) : ℚ))
    (hprod : roundFP 53 (((after.counterValue - before.counterValue : ℤ) : ℚ)
          * (1000000000 / (st.counterFrequency : ℚ)))
        = ((after.counterValue - before.counterValue : ℤ) : ℚ)
          * (1000000000 / (st.counterFrequency : ℚ)))
    (hfloat : roundFP 24 (((after.counterValue - before.counterValue : ℤ) : ℚ)
          * (1000000000 / (st.counterFrequency : ℚ)))
        = ((after.counterValue - before.counterValue : ℤ) : ℚ)
          * (1000000000 / (st.counterFrequency : ℚ))) :
    TimeStampExactDiff st before after = specTimeStampExactDiff st before after := by
  unfold TimeStampExactDiff specTimeStampExactDiff
  rw [hfreq, hquot, hdiff, hprod, hfloat, mul_div_assoc]

/-- Witness for C1: frequency `10^7` (a typical Windows performance-counter
frequency) and tick difference `10`, where every intermediate floating
value (`10^7`, `100`, `10`, `1000`) is exactly representable in both
formats. -/
theorem TimeStampExactDiff_eq_spec_witness :
    Init 10000000 = some { counterFrequency := 10000000 } ∧
      TimeStampExactDiff { counterFrequency := 10000000 } ⟨0⟩ ⟨10⟩ =
        specTimeStampExactDiff { counterFrequency := 10000000 } ⟨0⟩ ⟨10⟩ :=
  ⟨by decide, TimeStampExactDiff_eq_spec 10000000 _ (by decide) ⟨0⟩ ⟨10⟩
    (roundFP_eq_self_of_eq_int 53 (by norm_num) _ 10000000 (by norm_num) (by norm_num))
    (roundFP_eq_self_of_eq_int 53 (by norm_num) _ 100 (by norm_num) (by norm_num))
    (roundFP_eq_self_of_eq_int 53 (by norm_num) _ 10 (by norm_num) (by norm_num))
    (roundFP_eq_self_of_eq_int 53 (by norm_num) _ 1000 (by norm_num) (by norm_num))
    (roundFP_eq_self_of_eq_int 24 (by norm_num) _ 1000 (by norm_num) (by norm_num))⟩

/-- Counterexample to C2 as stated: at `a = 0`, `b = 2^53 + 1` and
fraction `1`, the conversion of the tick difference to `double` rounds
`2^53 + 1` down to `2^53` (tie to even), so the program returns `2^53`, not
`b` — the claim's quantification over all tick values fails. -/
theorem InterpolateTimeStamp_double_rounding_counterexample :
    InterpolateTimeStamp ⟨0⟩ ⟨9007199254740993⟩ 1 = ⟨9007199254740992⟩ ∧
      (9007199254740992 : ℤ) ≠ 9007199254740993 := by
  constructor
  · unfold InterpolateTimeStamp
    norm_num
    rw [roundFP53_two_pow_53_add_one,
      roundFP_eq_self_of_eq_int 53 (by norm_num) _ 9007199254740992 (by norm_num) (by norm_num)]
    exact ratTrunc_eq_int _ 9007199254740992 (by norm_num)
  · decide

/-- C2 (amended): interpolation at fraction `0` returns the first stamp and
at fraction `1` returns the second stamp, for all tick values whose
difference has magnitude at most `2^53` (the range in which the tick
difference converts to `double` exactly); the counterexample shows the
conversion rounds beyond that. -/
theorem InterpolateTimeStamp_endpoints (a b : SystemTimeStamp)
    (h : |b.counterValue - a.counterValue| ≤ 2 ^ 53) :
    InterpolateTimeStamp a b 0 = a ∧ InterpolateTimeStamp a b 1 = b := by
  have hd : roundFP 53 ((b.counterValue - a.counterValue : ℤ) : ℚ)
      = ((b.counterValue - a.counterValue : ℤ) : ℚ) :=
    roundFP_eq_self_of_eq_int 53 (by norm_num) _ (b.counterValue - a.counterValue) rfl h
  cases a with
  | mk av =>
    cases b with
    | mk bv =>
      constructor
      · unfold InterpolateTimeStamp
        rw [mul_zero, roundFP_zero]
        norm_num [ratTrunc]
      · unfold InterpolateTimeStamp
        rw [mul_one, hd, hd, ratTrunc_intCast]
        norm_num

/-- Witness for C2: stamps `0` and `5`, whose difference is far inside the
exactly-representable range. -/
theorem InterpolateTimeStamp_endpoints_witness :
    |(⟨5⟩ : SystemTimeStamp).counterValue - (⟨0⟩ : SystemTimeStamp).counterValue| ≤ 2 ^ 53 ∧
      InterpolateTimeStamp ⟨0⟩ ⟨5⟩ 0 = ⟨0⟩ ∧ InterpolateTimeStamp ⟨0⟩ ⟨5⟩ 1 = ⟨5⟩ :=
  ⟨by decide, (InterpolateTimeStamp_endpoints ⟨0⟩ ⟨5⟩ (by decide)).1,
    (InterpolateTimeStamp_endpoints ⟨0⟩ ⟨5⟩ (by decide)).2⟩

/-- C10: when both endpoints coincide, interpolation is the identity for
every fraction, including fractions outside `[0, 1]`: the tick difference
is exactly `0`, which converts to `double` exactly and annihilates the
product before the truncating cast. -/
theorem InterpolateTimeStamp_same_endpoints (a : SystemTimeStamp) (i : ℚ) :
    InterpolateTimeStamp a a i = a := by
  cases a with
  | mk av =>
    unfold InterpolateTimeStamp
    rw [show ((av - av : ℤ) : ℚ) = 0 from by push_cast; ring, roundFP_zero, zero_mul,
      roundFP_zero]
    norm_num [ratTrunc]

/-- C5: a normal return of `Init` guarantees the stored counter frequency is
non-zero (and equal to the OS-reported frequency); the zero-frequency case
never returns normally. -/
theorem Init_counterFrequency_ne_zero (osFrequency : ℤ) (st : SystemUtilsState)
    (h : Init osFrequency = some st) :
    st.counterFrequency ≠ 0 ∧ st.counterFrequency = osFrequency := by
  unfold Init at h
  by_cases hf : osFrequency = 0
  · rw [if_neg (by simp [hf])] at h
    cases h
  · rw [if_pos hf] at h
    cases h
    exact ⟨hf, rfl⟩

/-- Witness for C5: `Init 5` succeeds and the stored frequency is non-zero. -/
theorem Init_counterFrequency_ne_zero_witness :
    Init 5 = some { counterFrequency := 5 } ∧
      ({ counterFrequency := 5 } : SystemUtilsState).counterFrequency ≠ 0 :=
  ⟨by decide, (Init_counterFrequency_ne_zero 5 _ (by decide)).1⟩

/-- C8: given a non-zero counter frequency, swapping the two stamps negates
`TimeStampExactDiff` exactly: every rounding stage of the source (the
int-to-`double` conversion, the `double` multiplication, the `float`
narrowing, and the truncating cast) commutes with negation. -/
theorem TimeStampExactDiff_antisymm (st : SystemUtilsState)
    (hfreq : st.counterFrequency ≠ 0) (a b : SystemTimeStamp) :
    TimeStampExactDiff st a b = -TimeStampExactDiff st b a := by
  unfold TimeStampExactDiff
  rw [show ((b.counterValue - a.counterValue : ℤ) : ℚ)
      = -((a.counterValue - b.counterValue : ℤ) : ℚ) from by push_cast; ring,
    roundFP_neg, neg_mul, roundFP_neg, roundFP_neg, ratTrunc_neg]

/-- Witness for C8: concrete frequency `2` and stamps `0`, `1`. -/
theorem TimeStampExactDiff_antisymm_witness :
    (({ counterFrequency := 2 } : SystemUtilsState).counterFrequency ≠ 0) ∧
      TimeStampExactDiff { counterFrequency := 2 } ⟨0⟩ ⟨1⟩ =
        -TimeStampExactDiff { counterFrequency := 2 } ⟨1⟩ ⟨0⟩ :=
  ⟨by decide, TimeStampExactDiff_antisymm _ (by decide) ⟨0⟩ ⟨1⟩⟩

/-- Counterexample to C3 as stated: on a `YES_NO` dialog, the native return
code `1` (`IDOK`, e.g. from a failed or unexpected native call) makes
`SystemDialog` return `SDR_OK`, which is not in the subset that the
Yes/No button set can produce. -/
theorem SystemDialog_yes_no_ok_counterexample :
    SystemDialog .SDT_YES_NO (fun _ => 1) = .SDR_OK ∧
      .SDR_OK ∉ dialogTypeResults .SDT_YES_NO := by
  constructor
  · rfl
  · decide

/-- Evaluation of the producible native codes for each dialog type's flag
word. -/
theorem messageBoxButtonCodes_eval (type : SystemDialogType) :
    messageBoxButtonCodes (systemDialogWindowsType type) =
      (match type with
        | .SDT_YES_NO => [IDYES, IDNO]
        | .SDT_OK_CANCEL => [IDOK, IDCANCEL]
        | _ => [IDOK]) := by
  cases type <;> rfl

/-- C3 (amended): whenever the native return code is one that the requested
type's button set can actually produce, `SystemDialog` returns a result from
the subset belonging to that type; in particular a `YES_NO` dialog then
never returns `SDR_OK`. -/
theorem SystemDialog_result_in_button_subset (type : SystemDialogType)
    (messageBoxW : ℕ → ℕ)
    (h : messageBoxW (systemDialogWindowsType type) ∈
      messageBoxButtonCodes (systemDialogWindowsType type)) :
    SystemDialog type messageBoxW ∈ dialogTypeResults type := by
  rw [messageBoxButtonCodes_eval] at h
  cases type <;>
    simp only [List.mem_cons, List.not_mem_nil, or_false] at h <;>
    (try rcases h with h | h) <;>
    simp [SystemDialog, dialogTypeResults, h, IDOK, IDCANCEL, IDYES, IDNO]

/-- Witness for C3 (amended): a `YES_NO` dialog whose native call reports
`IDNO` yields `SDR_NO`, inside the Yes/No subset. -/
theorem SystemDialog_result_in_button_subset_witness :
    ((fun _ => 7 : ℕ → ℕ) (systemDialogWindowsType .SDT_YES_NO) ∈
        messageBoxButtonCodes (systemDialogWindowsType .SDT_YES_NO)) ∧
      SystemDialog .SDT_YES_NO (fun _ => 7) ∈ dialogTypeResults .SDT_YES_NO :=
  ⟨by decide, SystemDialog_result_in_button_subset .SDT_YES_NO (fun _ => 7) (by decide)⟩

/-- C4: the native-code mapping of `SystemDialog`: `IDOK` maps to `SDR_OK`,
`IDCANCEL` to `SDR_CANCEL`, `IDYES` to `SDR_YES`, `IDNO` to `SDR_NO`, and
every other native code maps to `SDR_OK`, whatever the dialog type. -/
theorem SystemDialog_native_code_mapping (type : SystemDialogType)
    (messageBoxW : ℕ → ℕ) :
    (messageBoxW (systemDialogWindowsType type) = IDOK →
        SystemDialog type messageBoxW = .SDR_OK) ∧
    (messageBoxW (systemDialogWindowsType type) = IDCANCEL →
        SystemDialog type messageBoxW = .SDR_CANCEL) ∧
    (messageBoxW (systemDialogWindowsType type) = IDYES →
        SystemDialog type messageBoxW = .SDR_YES) ∧
    (messageBoxW (systemDialogWindowsType type) = IDNO →
        SystemDialog type messageBoxW = .SDR_NO) ∧
    (messageBoxW (systemDialogWindowsType type) ∉ [IDOK, IDCANCEL, IDYES, IDNO] →
        SystemDialog type messageBoxW = .SDR_OK) := by
  unfold SystemDialog IDOK IDCANCEL IDYES IDNO
  refine ⟨fun h => ?_, fun h => ?_, fun h => ?_, fun h => ?_, fun h => ?_⟩ <;>
    simp only [List.mem_cons, List.not_mem_nil, or_false, not_or] at h <;>
    simp [h]

/-- Witness for C4: an unrecognized native code (`1000`) on an `INFO` dialog
maps to `SDR_OK`. -/
theorem SystemDialog_native_code_mapping_witness :
    ((fun _ => 1000 : ℕ → ℕ) (systemDialogWindowsType .SDT_INFO) ∉
        [IDOK, IDCANCEL, IDYES, IDNO]) ∧
      SystemDialog .SDT_INFO (fun _ => 1000) = .SDR_OK :=
  ⟨by decide, (SystemDialog_native_code_mapping .SDT_INFO (fun _ => 1000)).2.2.2.2 (by decide)⟩

/-- C6: in a non-portable, non-development build, `GetSaveDir` appends the
application subdirectory to a non-empty `USERPROFILE` value without logging,
and on an empty value logs the warning and returns the platform-neutral
default save directory. -/
theorem GetSaveDir_userprofile_or_default (envUSERPROFILE defaultSaveDir : String) :
    (envUSERPROFILE.isEmpty = false →
        GetSaveDir envUSERPROFILE defaultSaveDir = (envUSERPROFILE ++ "\\colobot", false)) ∧
    (envUSERPROFILE.isEmpty = true →
        GetSaveDir envUSERPROFILE defaultSaveDir = (defaultSaveDir, true)) := by
  unfold GetSaveDir
  constructor
  · intro h
    rw [if_neg (by simp [h])]
  · intro h
    rw [if_pos h]

/-- Witness for C6: both branches at concrete strings. -/
theorem GetSaveDir_userprofile_or_default_witness :
    GetSaveDir "C:\\Users\\alice" "default" = ("C:\\Users\\alice" ++ "\\colobot", false) ∧
      GetSaveDir "" "default" = ("default", true) :=
  ⟨(GetSaveDir_userprofile_or_default "C:\\Users\\alice" "default").1 (by rfl),
    (GetSaveDir_userprofile_or_default "" "default").2 (by rfl)⟩

/-- C7: `OpenPath` and `OpenWebsite` return `false` (and log the error)
exactly when the launch command's exit code is non-zero, and `true` (logging
nothing) exactly when it is zero. -/
theorem OpenPath_OpenWebsite_exit_code (systemExit : String → ℤ) (path url : String) :
    ((OpenPath systemExit path).1 = false ↔ systemExit (openPathCommand path) ≠ 0) ∧
    ((OpenPath systemExit path).1 = true ↔ systemExit (openPathCommand path) = 0) ∧
    ((OpenPath systemExit path).2 = true ↔ systemExit (openPathCommand path) ≠ 0) ∧
    ((OpenWebsite systemExit url).1 = false ↔ systemExit (openWebsiteCommand url) ≠ 0) ∧
    ((OpenWebsite systemExit url).1 = true ↔ systemExit (openWebsiteCommand url) = 0) ∧
    ((OpenWebsite systemExit url).2 = true ↔ systemExit (openWebsiteCommand url) ≠ 0) := by
  unfold OpenPath OpenWebsite
  by_cases hp : systemExit (openPathCommand path) = 0 <;>
    by_cases hw : systemExit (openWebsiteCommand url) = 0 <;>
      simp [hp, hw]

/-! ### Text encoding: model of the `CP_UTF8` conversions

`CSystemUtilsWindows::UTF8_Decode` calls `MultiByteToWideChar(CP_UTF8, ...)`
(UTF-8 bytes to UTF-16 code units) and `CSystemUtilsWindows::UTF8_Encode`
calls `WideCharToMultiByte(CP_UTF8, ...)` (UTF-16 code units to UTF-8
bytes).  Both native calls are external to the repository; they are modelled
here by the standard UTF-8/UTF-16 conversions, with ill-formed input mapped
to the replacement character `U+FFFD` (the claims only concern well-formed
input).  Byte strings are `List ℕ` of byte values and wide strings are
`List ℕ` of 16-bit code-unit values. -/

/-- Scalar Unicode code point: in range and not a surrogate. -/
def IsScalar (c : ℕ) : Prop := c < 0x110000 ∧ ¬(0xD800 ≤ c ∧ c < 0xE000)

instance (c : ℕ) : Decidable (IsScalar c) := by
  unfold IsScalar
  infer_instance

/-- UTF-8 encoding of one scalar code point (1 to 4 bytes). -/
def utf8EncodeChar (c : ℕ) : List ℕ :=
  if c < 0x80 then [c]
  else if c < 0x800 then [0xC0 + c / 0x40, 0x80 + c % 0x40]
  else if c < 0x10000 then [0xE0 + c / 0x1000, 0x80 + c / 0x40 % 0x40, 0x80 + c % 0x40]
  else [0xF0 + c / 0x40000, 0x80 + c / 0x1000 % 0x40, 0x80 + c / 0x40 % 0x40, 0x80 + c % 0x40]

/-- UTF-16 encoding of one scalar code point (1 or 2 code units). -/
def utf16EncodeChar (c : ℕ) : List ℕ :=
  if c < 0x10000 then [c]
  else [0xD800 + (c - 0x10000) / 0x400, 0xDC00 + (c - 0x10000) % 0x400]

/-- One step of UTF-8 decoding: from a first byte and the remaining bytes,
the decoded code point (or `U+FFFD`) and the rest of the input. -/
def utf8DecodeStep (b : ℕ) (rest : List ℕ) : ℕ × List ℕ :=
  if b < 0x80 then (b, rest)
  else if b < 0xC2 then (0xFFFD, rest)
  else if b < 0xE0 then
    match rest with
    | b1 :: rest1 =>
      if 0x80 ≤ b1 ∧ b1 < 0xC0 then ((b - 0xC0) * 0x40 + (b1 - 0x80), rest1)
      else (0xFFFD, rest1)
    | [] => (0xFFFD, [])
  else if b < 0xF0 then
    match rest with
    | b1 :: b2 :: rest2 =>
      if (0x80 ≤ b1 ∧ b1 < 0xC0) ∧ (0x80 ≤ b2 ∧ b2 < 0xC0) then
        (let c := (b - 0xE0) * 0x1000 + (b1 - 0x80) * 0x40 + (b2 - 0x80)
         if 0x800 ≤ c ∧ ¬(0xD800 ≤ c ∧ c < 0xE000) then (c, rest2) else (0xFFFD, rest2))
      else (0xFFFD, rest2)
    | _ => (0xFFFD, [])
  else if b < 0xF5 then
    match rest with
    | b1 :: b2 :: b3 :: rest3 =>
      if (0x80 ≤ b1 ∧ b1 < 0xC0) ∧ (0x80 ≤ b2 ∧ b2 < 0xC0) ∧ (0x80 ≤ b3 ∧ b3 < 0xC0) then
        (let c := (b - 0xF0) * 0x40000 + (b1 - 0x80) * 0x1000 + (b2 - 0x80) * 0x40 + (b3 - 0x80)
         if 0x10000 ≤ c ∧ c < 0x110000 then (c, rest3) else (0xFFFD, rest3))
      else (0xFFFD, rest3)
    | _ => (0xFFFD, [])
  else (0xFFFD, rest)

/-- The rest returned by a UTF-8 decoding step never grows. -/
theorem utf8DecodeStep_length_le (b : ℕ) (rest : List ℕ) :
    (utf8DecodeStep b rest).2.length ≤ rest.length := by
  rcases rest with _ | ⟨b1, _ | ⟨b2, _ | ⟨b3, rest3⟩⟩⟩ <;>
    simp only [utf8DecodeStep] <;>
    split_ifs <;>
    simp <;>
    omega

/-- UTF-8 decoding of a byte string to code points. -/
def utf8Decode : List ℕ → List ℕ
  | [] => []
  | b :: rest => (utf8DecodeStep b rest).1 :: utf8Decode (utf8DecodeStep b rest).2
termination_by l => l.length
decreasing_by
  simp only [List.length_cons]
  exact Nat.lt_succ_of_le (utf8DecodeStep_length_le _ _)

/-- One step of UTF-16 decoding: pairs a high surrogate with a following low
surrogate; unpaired surrogates become `U+FFFD`. -/
def utf16DecodeStep (u : ℕ) (rest : List ℕ) : ℕ × List ℕ :=
  if 0xD800 ≤ u ∧ u < 0xDC00 then
    match rest with
    | v :: rest1 =>
      if 0xDC00 ≤ v ∧ v < 0xE000 then (0x10000 + (u - 0xD800) * 0x400 + (v - 0xDC00), rest1)
      else (0xFFFD, rest1)
    | [] => (0xFFFD, [])
  else if 0xDC00 ≤ u ∧ u < 0xE000 then (0xFFFD, rest)
  else (u, rest)

/-- The rest returned by a UTF-16 decoding step never grows. -/
theorem utf16DecodeStep_length_le (u : ℕ) (rest : List ℕ) :
    (utf16DecodeStep u rest).2.length ≤ rest.length := by
  rcases rest with _ | ⟨v, rest1⟩ <;>
    simp only [utf16DecodeStep] <;>
    split_ifs <;>
    simp

/-- UTF-16 decoding of a wide string to code points. -/
def utf16Decode : List ℕ → List ℕ
  | [] => []
  | u :: rest => (utf16DecodeStep u rest).1 :: utf16Decode (utf16DecodeStep u rest).2
termination_by l => l.length
decreasing_by
  simp only [List.length_cons]
  exact Nat.lt_succ_of_le (utf16DecodeStep_length_le _ _)

/-- `CSystemUtilsWindows::UTF8_Decode`: converts a UTF-8 byte string to the
native wide (UTF-16) representation. -/
def UTF8_Decode (str : List ℕ) : List ℕ :=
  (utf8Decode str).flatMap utf16EncodeChar

/-- `CSystemUtilsWindows::UTF8_Encode`: converts a native wide (UTF-16)
string to a UTF-8 byte string. -/
def UTF8_Encode (wstr : List ℕ) : List ℕ :=
  (utf16Decode wstr).flatMap utf8EncodeChar

/-- A byte string is valid UTF-8 (without unpaired surrogates) when it is
the UTF-8 encoding of a sequence of scalar code points. -/
def ValidUTF8 (str : List ℕ) : Prop :=
  ∃ cps : List ℕ, (∀ c ∈ cps, IsScalar c) ∧ str = cps.flatMap utf8EncodeChar

/-- Decoding a UTF-8-encoded scalar at the head of a byte string recovers
the code point and leaves the tail untouched. -/
theorem utf8Decode_encodeChar_append (c : ℕ) (h : IsScalar c) (rest : List ℕ) :
    utf8Decode (utf8EncodeChar c ++ rest) = c :: utf8Decode rest := by
  obtain ⟨hlt, hsur⟩ := h
  by_cases h1 : c < 0x80
  · have e : utf8EncodeChar c = [c] := by
      simp only [utf8EncodeChar]
      rw [if_pos h1]
    rw [e, List.cons_append, List.nil_append, utf8Decode]
    have hstep : utf8DecodeStep c rest = (c, rest) := by
      simp only [utf8DecodeStep]
      rw [if_pos h1]
    rw [hstep]
  · by_cases h2 : c < 0x800
    · have e : utf8EncodeChar c = [0xC0 + c / 0x40, 0x80 + c % 0x40] := by
        simp only [utf8EncodeChar]
        rw [if_neg h1, if_pos h2]
      rw [e]
      simp only [List.cons_append, List.nil_append]
      rw [utf8Decode]
      have hstep : utf8DecodeStep (0xC0 + c / 0x40) ((0x80 + c % 0x40) :: rest) = (c, rest) := by
        simp only [utf8DecodeStep]
        rw [if_neg (by omega), if_neg (by omega), if_pos (by omega),
          if_pos (by constructor <;> omega)]
        simp only [Prod.mk.injEq]
        exact ⟨by omega, trivial⟩
      rw [hstep]
    · by_cases h3 : c < 0x10000
      · have e : utf8EncodeChar c =
            [0xE0 + c / 0x1000, 0x80 + c / 0x40 % 0x40, 0x80 + c % 0x40] := by
          simp only [utf8EncodeChar]
          rw [if_neg h1, if_neg h2, if_pos h3]
        rw [e]
        simp only [List.cons_append, List.nil_append]
        rw [utf8Decode]
        have hstep : utf8DecodeStep (0xE0 + c / 0x1000)
            ((0x80 + c / 0x40 % 0x40) :: (0x80 + c % 0x40) :: rest) = (c, rest) := by
          simp only [utf8DecodeStep]
          rw [if_neg (by omega), if_neg (by omega), if_neg (by omega), if_pos (by omega),
            if_pos (by constructor <;> constructor <;> omega)]
          rw [if_pos (by constructor <;> omega)]
          simp only [Prod.mk.injEq]
          exact ⟨by omega, trivial⟩
        rw [hstep]
      · have e : utf8EncodeChar c =
            [0xF0 + c / 0x40000, 0x80 + c / 0x1000 % 0x40, 0x80 + c / 0x40 % 0x40,
              0x80 + c % 0x40] := by
          simp only [utf8EncodeChar]
          rw [if_neg h1, if_neg h2, if_neg h3]
        rw [e]
        simp only [List.cons_append, List.nil_append]
        rw [utf8Decode]
        have hstep : utf8DecodeStep (0xF0 + c / 0x40000)
            ((0x80 + c / 0x1000 % 0x40) :: (0x80 + c / 0x40 % 0x40) ::
              (0x80 + c % 0x40) :: rest) = (c, rest) := by
          simp only [utf8DecodeStep]
          rw [if_neg (by omega), if_neg (by omega), if_neg (by omega), if_neg (by omega),
            if_pos (by omega),
            if_pos (by refine ⟨⟨by omega, by omega⟩, ⟨by omega, by omega⟩, by omega, by omega⟩)]
          rw [if_pos (by constructor <;> omega)]
          simp only [Prod.mk.injEq]
          exact ⟨by omega, trivial⟩
        rw [hstep]

/-- Decoding a UTF-16-encoded scalar at the head of a wide string recovers
the code point and leaves the tail untouched. -/
theorem utf16Decode_encodeChar_append (c : ℕ) (h : IsScalar c) (rest : List ℕ) :
    utf16Decode (utf16EncodeChar c ++ rest) = c :: utf16Decode rest := by
  obtain ⟨hlt, hsur⟩ := h
  by_cases h1 : c < 0x10000
  · have e : utf16EncodeChar c = [c] := by
      simp only [utf16EncodeChar]
      rw [if_pos h1]
    rw [e, List.cons_append, List.nil_append, utf16Decode]
    have hstep : utf16DecodeStep c rest = (c, rest) := by
      simp only [utf16DecodeStep]
      rw [if_neg (by omega), if_neg (by omega)]
    rw [hstep]
  · have e : utf16EncodeChar c =
        [0xD800 + (c - 0x10000) / 0x400, 0xDC00 + (c - 0x10000) % 0x400] := by
      simp only [utf16EncodeChar]
      rw [if_neg h1]
    rw [e]
    simp only [List.cons_append, List.nil_append]
    rw [utf16Decode]
    have hstep : utf16DecodeStep (0xD800 + (c - 0x10000) / 0x400)
        ((0xDC00 + (c - 0x10000) % 0x400) :: rest) = (c, rest) := by
      simp only [utf16DecodeStep]
      rw [if_pos (by constructor <;> omega), if_pos (by constructor <;> omega)]
      simp only [Prod.mk.injEq]
      exact ⟨by omega, trivial⟩
    rw [hstep]

/-- Decoding the UTF-8 encoding of a sequence of scalar code points gives
back the code points. -/
theorem utf8Decode_flatMap (cps : List ℕ) (h : ∀ c ∈ cps, IsScalar c) :
    utf8Decode (cps.flatMap utf8EncodeChar) = cps := by
  induction cps with
  | nil =>
    show utf8Decode [] = []
    rw [utf8Decode]
  | cons c t ih =>
    rw [List.flatMap_cons, utf8Decode_encodeChar_append c (h c (by simp)) _,
      ih (fun x hx => h x (by simp [hx]))]

/-- Decoding the UTF-16 encoding of a sequence of scalar code points gives
back the code points. -/
theorem utf16Decode_flatMap (cps : List ℕ) (h : ∀ c ∈ cps, IsScalar c) :
    utf16Decode (cps.flatMap utf16EncodeChar) = cps := by
  induction cps with
  | nil =>
    show utf16Decode [] = []
    rw [utf16Decode]
  | cons c t ih =>
    rw [List.flatMap_cons, utf16Decode_encodeChar_append c (h c (by simp)) _,
      ih (fun x hx => h x (by simp [hx]))]

/-- C9: for every valid UTF-8 string without unpaired surrogate code points,
decoding to the native wide representation with `UTF8_Decode` and encoding
back with `UTF8_Encode` yields the original string. -/
theorem UTF8_Encode_Decode_roundtrip (str : List ℕ) (h : ValidUTF8 str) :
    UTF8_Encode (UTF8_Decode str) = str := by
  obtain ⟨cps, hcps, rfl⟩ := h
  unfold UTF8_Decode UTF8_Encode
  rw [utf8Decode_flatMap cps hcps, utf16Decode_flatMap cps hcps]

/-- Witness for C9: the UTF-8 bytes of "aé€𝄞" (one code point from each
encoded length) round-trip. -/
theorem UTF8_Encode_Decode_roundtrip_witness :
    ValidUTF8 [0x61, 0xC3, 0xA9, 0xE2, 0x82, 0xAC, 0xF0, 0x9D, 0x84, 0x9E] ∧
      UTF8_Encode (UTF8_Decode [0x61, 0xC3, 0xA9, 0xE2, 0x82, 0xAC, 0xF0, 0x9D, 0x84, 0x9E]) =
        [0x61, 0xC3, 0xA9, 0xE2, 0x82, 0xAC, 0xF0, 0x9D, 0x84, 0x9E] :=
  ⟨⟨[0x61, 0xE9, 0x20AC, 0x1D11E], by decide, by decide⟩,
    UTF8_Encode_Decode_roundtrip _ ⟨[0x61, 0xE9, 0x20AC, 0x1D11E], by decide, by decide⟩⟩
